import Mathlib

/-
Verification development for the asrc-rs-research repository.

Shallow embedding conventions:
- Rust f64 arithmetic is modelled over ℚ (exact rationals); the claims under
  study are about which formula is computed, not about rounding of floats.
- Rust u64 arithmetic is modelled as ℕ with explicit reduction modulo 2^64
  where the source can wrap (release-mode wrapping semantics); `as u64` on a
  signed value is the two's-complement cast, i.e. the Euclidean remainder
  modulo 2^64.
- The external FFT library (rustfft) is not part of the repository; the
  transform is taken as an abstract length-preserving function parameter.
  A concrete rational 4-point DFT is provided for witnesses.
- Fallible control flow (a Rust panic such as an out-of-bounds index) is
  modelled with Option: `none` means the program aborts at that point.
-/

/- ===== src/dsp.rs ===== -/

/-- Embedding of `struct Biquad` from src/dsp.rs: five coefficients and the
four delay-line fields. -/
structure Biquad where
  b0 : ℚ
  b1 : ℚ
  b2 : ℚ
  a1 : ℚ
  a2 : ℚ
  x1 : ℚ
  x2 : ℚ
  y1 : ℚ
  y2 : ℚ
  deriving DecidableEq

/-- `Biquad::default()`: all fields zero (Rust `#[derive(Default)]` on f64
fields). -/
def Biquad.zero : Biquad := ⟨0, 0, 0, 0, 0, 0, 0, 0, 0⟩

/-- One iteration of the loop body of `iir` (src/dsp.rs lines 34-45): computes
`y = b0*x + b1*x1 + b2*x2 + a1*y1 + a2*y2` (feedback terms added), then shifts
the delay line. Returns the output sample and the updated state. -/
def iirStep (bq : Biquad) (x : ℚ) : ℚ × Biquad :=
  let y := bq.b0 * x + bq.b1 * bq.x1 + bq.b2 * bq.x2 + bq.a1 * bq.y1 + bq.a2 * bq.y2
  (y, ⟨bq.b0, bq.b1, bq.b2, bq.a1, bq.a2, x, bq.x1, y, bq.y1⟩)

/-- The `for i in 0..input.len()` loop of `iir`, threading the Biquad state
through the samples and collecting the outputs in order. -/
def iirLoop (bq : Biquad) : List ℚ → List ℚ × Biquad
  | [] => ([], bq)
  | x :: xs =>
      let p := iirStep bq x
      let r := iirLoop p.2 xs
      (p.1 :: r.1, r.2)

/-- Embedding of `pub fn iir(input, output, bq)` from src/dsp.rs: if the input
and pre-allocated output lengths differ the function returns immediately,
leaving the output buffer and the state untouched (`if input.len() !=
output.len() { return; }`); otherwise every position of the output buffer is
overwritten by the filter recursion. The result is the pair (final contents of
the output buffer, final Biquad state). -/
def iir (input : List ℚ) (output : List ℚ) (bq : Biquad) : List ℚ × Biquad :=
  if input.length = output.length then iirLoop bq input else (output, bq)

/- ===== src/analysis.rs ===== -/

/-- A complex value with rational components, standing for
`rustfft::num_complex::Complex<f64>`. -/
structure Cplx where
  re : ℚ
  im : ℚ
  deriving DecidableEq

/-- Embedding of `fn get_fft(data)` from src/analysis.rs lines 48-67. The
rustfft planner's transform is abstracted as `plan` (rustfft writes an output
of the same length as the input). The function maps the input to complex
values with zero imaginary part, applies the transform, takes `c.re.abs()` of
every output value — the absolute value of the REAL PART, not the complex
magnitude — and truncates to the first `data.len() / 2` entries. -/
def get_fft (plan : List Cplx → List Cplx) (data : List ℚ) : List ℚ :=
  let fft_in := data.map (fun value => Cplx.mk value 0)
  let fft_out := plan fft_in
  let fft_vals := fft_out.map (fun c => |c.re|)
  fft_vals.take (data.length / 2)

/-- A concrete forward 4-point DFT with the rustfft convention
(twiddle factor w = exp(-2*pi*i/4) = -i, all twiddles exact Gaussian
rationals), used to instantiate the abstract transform on witnesses. On lists
of length other than 4 it acts as the identity. -/
def dft4plan : List Cplx → List Cplx
  | [x0, x1, x2, x3] =>
      [⟨x0.re + x1.re + x2.re + x3.re, x0.im + x1.im + x2.im + x3.im⟩,
       ⟨x0.re + x1.im - x2.re - x3.im, x0.im - x1.re - x2.im + x3.re⟩,
       ⟨x0.re - x1.re + x2.re - x3.re, x0.im - x1.im + x2.im - x3.im⟩,
       ⟨x0.re - x1.im - x2.re + x3.im, x0.im + x1.re - x2.im - x3.re⟩]
  | l => l

/-- The per-line loop of `fn write_fft` (src/analysis.rs lines 79-84), with the
divisor `(fft_data.len() - 1) as f64` passed in as `denom` and the running
index as `i`: each written line is the pair
(normalized frequency `i / denom`, magnitude). -/
def writeFftGo (denom : ℚ) (i : ℕ) : List ℚ → List (ℚ × ℚ)
  | [] => []
  | x :: xs => ((i : ℚ) / denom, x) :: writeFftGo denom (i + 1) xs

/-- Embedding of `fn write_fft(file_name, fft_data)`: the sequence of
(normalized frequency, magnitude) lines written to the file. The divisor is
`fft_data.len() - 1` (usize subtraction, exact for non-empty data). -/
def write_fft (fft_data : List ℚ) : List (ℚ × ℚ) :=
  writeFftGo ((fft_data.length - 1 : ℕ) : ℚ) 0 fft_data

/-- Embedding of `fn get_biquad(magic, q)` from src/analysis.rs lines 86-109.
The real cosine, sine and pi of the f64 source are abstracted as the
parameters `cosf`, `sinf` and `pi`; the claim under study is an algebraic
identity between coefficient formulas that holds for every interpretation of
these parameters. The delay-line fields come from `Biquad::default()`. -/
def get_biquad (cosf sinf : ℚ → ℚ) (pi : ℚ) (magic q : ℚ) : Biquad :=
  let omega := 2 * pi * magic
  let cos_omega := cosf omega
  let alpha := sinf omega / (2 * q)
  let b0 := (1 - cos_omega) / 2
  let b1 := 1 - cos_omega
  let b2 := (1 - cos_omega) / 2
  let a0 := 1 + alpha
  let a1 := -2 * cos_omega
  let a2 := 1 - alpha
  ⟨b0 / a0, b1 / a0, b2 / a0, -a1 / a0, -a2 / a0, 0, 0, 0, 0⟩

/-- Normalized low-pass coefficients in the textbook sign convention. -/
structure LowpassCoeffs where
  b0 : ℚ
  b1 : ℚ
  b2 : ℚ
  a1 : ℚ
  a2 : ℚ
  deriving DecidableEq

/-- Modelled from the spec (section 4.6 of the specification): the standard
audio-EQ-cookbook low-pass prototype at normalized cutoff `fc` and quality
factor `q` — `omega = 2*pi*fc`, `alpha = sin(omega)/(2*q)`,
`b0 = b2 = (1 - cos omega)/2`, `b1 = 1 - cos omega`, `a0 = 1 + alpha`,
`a1 = -2*cos omega`, `a2 = 1 - alpha` — with every coefficient divided by
`a0`, keeping the textbook sign of the feedback coefficients. The same
abstract trigonometric parameters are used as in `get_biquad`. -/
def cookbookLowpass (cosf sinf : ℚ → ℚ) (pi : ℚ) (fc q : ℚ) : LowpassCoeffs :=
  let omega := 2 * pi * fc
  let cos_omega := cosf omega
  let alpha := sinf omega / (2 * q)
  let b0 := (1 - cos_omega) / 2
  let b1 := 1 - cos_omega
  let b2 := (1 - cos_omega) / 2
  let a0 := 1 + alpha
  let a1 := -2 * cos_omega
  let a2 := 1 - alpha
  ⟨b0 / a0, b1 / a0, b2 / a0, a1 / a0, a2 / a0⟩

/-- Embedding of the skip / fade sample-count computations of `fn main` in
src/analysis.rs (lines 139-140): `(sample_rate as f64 * seconds / period_size
as f64) as usize`. A Rust f64 → usize cast truncates toward zero and saturates
at zero for negative values, which on these values is the floor clamped at
zero. -/
def skipCount (sample_rate period_size : ℕ) (seconds : ℚ) : ℕ :=
  (⌊(sample_rate : ℚ) * seconds / (period_size : ℚ)⌋).toNat

/-- The fade-in loop of `fn main` in src/analysis.rs (lines 149-152):
`for i in 0..fade { data[i] = data[i] * (i as f64 / (fade - 1) as f64) }`,
walking the list with running index `i` and divisor `denom = fade - 1`.
Indexing `data[i]` with `i` out of bounds is a Rust panic, modelled as
`none`. -/
def fadeGo (denom : ℚ) (fade : ℕ) (i : ℕ) : List ℚ → Option (List ℚ)
  | [] => if i < fade then none else some []
  | x :: xs =>
      if i < fade then
        match fadeGo denom fade (i + 1) xs with
        | none => none
        | some ys => some (x * ((i : ℚ) / denom) :: ys)
      else some (x :: xs)

/-- Embedding of the data-preparation stage of `fn main` in src/analysis.rs
(lines 142-152): the parsed series has its first `skip` points discarded
(`.skip(skip)`), then the fade-in loop multiplies each of the first `fade`
remaining points by `i / (fade - 1)`. `none` models the out-of-bounds panic
inside the fade loop. -/
def prepareData (lines : List ℚ) (skip fade : ℕ) : Option (List ℚ) :=
  fadeGo ((fade : ℚ) - 1) fade 0 (lines.drop skip)

/- ===== src/alsa_audio_time.rs ===== -/

/-- Embedding of `libc::timespec`. -/
structure Timespec where
  tv_sec : ℤ
  tv_nsec : ℤ
  deriving DecidableEq

/-- Embedding of `fn timespec_f64` (src/alsa_audio_time.rs lines 319-321):
seconds plus nanoseconds over 1e9. -/
def timespec_f64 (ts : Timespec) : ℚ :=
  (ts.tv_sec : ℚ) + (ts.tv_nsec : ℚ) / 1000000000

/-- The fields of an `alsa::pcm::Status` snapshot that
`write_timestamp_capture` reads: the three timestamps and the delay frame
count (a signed value in ALSA). -/
structure AlsaStatus where
  audio_htstamp : Timespec
  trigger_htstamp : Timespec
  htstamp : Timespec
  delay : ℤ
  deriving DecidableEq

/-- Embedding of `struct PreviousStatus` (src/alsa_audio_time.rs lines
65-69). `captured_frames` is a u64 in the source, so here a natural below
2^64. -/
structure PreviousStatus where
  audio_htstamp : Timespec
  htstamp : Timespec
  captured_frames : ℕ
  deriving DecidableEq

/-- Two's-complement cast of a signed value to u64 (`status.get_delay() as
u64`): the Euclidean remainder modulo 2^64. -/
def toU64 (i : ℤ) : ℕ := (i % (2 ^ 64 : ℤ)).toNat

/-- Wrapping u64 subtraction (release-mode semantics of
`captured_frames - last_status.captured_frames`). -/
def u64Sub (a b : ℕ) : ℕ := (((a : ℤ) - (b : ℤ)) % (2 ^ 64 : ℤ)).toNat

/-- Embedding of `fn write_timestamp_capture` (src/alsa_audio_time.rs lines
260-297). `captured_frames = frames_count + status.get_delay() as u64` (u64
arithmetic). If a previous status sample is retained, the value written to the
file is `system_rate_instant = (captured_frames - last.captured_frames) /
(system_tstamp - timespec_f64(last.htstamp))`; otherwise nothing is written.
In both cases the previous-status slot is replaced with the current snapshot.
The source also computes audio_elapsed, trigger_tstamp, audio_rate_instant and
drift, but every write of those lines is commented out; only
`system_rate_instant` reaches the file. Returns (line written, new previous
status). -/
def write_timestamp_capture (status : AlsaStatus) (last_status : Option PreviousStatus)
    (frames_count : ℕ) : Option ℚ × PreviousStatus :=
  let system_tstamp := timespec_f64 status.htstamp
  let captured_frames := (frames_count + toU64 status.delay) % 2 ^ 64
  let written :=
    match last_status with
    | none => none
    | some last =>
        let captured_frames_from_last := u64Sub captured_frames last.captured_frames
        let system_elapsed_from_last := system_tstamp - timespec_f64 last.htstamp
        some ((captured_frames_from_last : ℚ) / system_elapsed_from_last)
  (written, ⟨status.audio_htstamp, status.htstamp, captured_frames⟩)

/-- The capture-direction mutable state of the main loop
(src/alsa_audio_time.rs lines 107-112): the xrun counter, the cumulative
transferred-frame counter and the retained previous status sample. -/
structure CaptureState where
  xruns : ℕ
  frames_count : ℕ
  last_status : Option PreviousStatus
  deriving DecidableEq

/-- The recovery sequence run on a capture wait or transfer error
(src/alsa_audio_time.rs lines 167-172 and 188-193): `try_recover` and
`start` re-prime and restart the stream (external effects), then
`xruns_c += 1; frames_count_c = 0; last_status_c = None`. -/
def recoverCapture (st : CaptureState) : CaptureState :=
  ⟨st.xruns + 1, 0, none⟩

/-- Outcome of `io.readi(&mut buffer_c)`: a successful transfer of `len`
frames with the status snapshot then taken, or an error. -/
inductive ReadResult where
  | ok (len : ℕ) (status : AlsaStatus)
  | err
  deriving DecidableEq

/-- Embedding of the capture section of one main-loop iteration
(src/alsa_audio_time.rs lines 165-196), with the output file present. A wait
error first runs the recovery sequence; then the read happens: on success the
frame counter accumulates (u64 wrapping add) and `write_timestamp_capture`
runs against the retained previous sample; on a read error the recovery
sequence runs and nothing is written. Returns (new state, line written). -/
def captureIteration (waitErr : Bool) (rr : ReadResult) (st : CaptureState) :
    CaptureState × Option ℚ :=
  let st1 := if waitErr then recoverCapture st else st
  match rr with
  | ReadResult.ok len status =>
      let frames := (st1.frames_count + len) % 2 ^ 64
      let wr := write_timestamp_capture status st1.last_status frames
      (⟨st1.xruns, frames, some wr.2⟩, wr.1)
  | ReadResult.err => (recoverCapture st1, none)

/- ===== Specification-side definitions (from the claim wording, for
refinement statements) ===== -/

/-- The input history x[n] of the direct-form recursion claimed for `iir`,
indexed with an offset of two so that index m stands for x[m - 2]: the two
values before the series are the delay-line fields x1 (at x[-1]) and x2
(at x[-2]) of the initial state, and from index 2 on it is the input series
itself. -/
def specX (bq : Biquad) (xs : List ℚ) : ℕ → ℚ
  | 0 => bq.x2
  | 1 => bq.x1
  | n + 2 => xs.getD n 0

/-- The output sequence y[n] of the claimed direct-form recursion
`y[n] = b0*x[n] + b1*x[n-1] + b2*x[n-2] + a1*y[n-1] + a2*y[n-2]` (feedback
terms added, not subtracted), indexed with the same offset of two: y[-1] and
y[-2] are the delay-line fields y1 and y2 of the initial state. This
definition is written from the claim, to be compared with the source
embedding `iir`. -/
def specY (bq : Biquad) (xs : List ℚ) : ℕ → ℚ
  | 0 => bq.y2
  | 1 => bq.y1
  | n + 2 =>
      bq.b0 * specX bq xs (n + 2) + bq.b1 * specX bq xs (n + 1) + bq.b2 * specX bq xs n
        + bq.a1 * specY bq xs (n + 1) + bq.a2 * specY bq xs n

/-- A concrete filter state with distinct coefficient and delay-line values,
used to instantiate universally quantified filter theorems. -/
def bq0 : Biquad := ⟨2, 3, 5, 7, 11, 13, 17, 19, 23⟩

/- ===== Helper lemmas ===== -/

/-- The filter loop emits exactly one output sample per input sample. -/
theorem iirLoop_length (xs : List ℚ) : ∀ bq : Biquad, (iirLoop bq xs).1.length = xs.length := by
  induction xs with
  | nil => intro bq; rfl
  | cons x xs ih => intro bq; simp [iirLoop, ih]

/-- Shifting the state by one `iirStep` shifts the claimed input history by
one position. -/
theorem specX_step (bq : Biquad) (x : ℚ) (xs : List ℚ) :
    ∀ m, specX (iirStep bq x).2 xs m = specX bq (x :: xs) (m + 1) := by
  intro m
  match m with
  | 0 => rfl
  | 1 => rfl
  | m + 2 => rfl

/-- Shifting the state by one `iirStep` shifts the claimed output history by
one position. -/
theorem specY_step (bq : Biquad) (x : ℚ) (xs : List ℚ) :
    ∀ m, specY (iirStep bq x).2 xs m = specY bq (x :: xs) (m + 1) := by
  intro m
  induction m using Nat.strong_induction_on with
  | _ m ih =>
    match m with
    | 0 => rfl
    | 1 =>
      show (iirStep bq x).2.y1 = specY bq (x :: xs) 2
      simp [iirStep, specY, specX]
    | m + 2 =>
      have h1 := ih (m + 1) (by omega)
      have h0 := ih m (by omega)
      calc specY (iirStep bq x).2 xs (m + 2)
          = (iirStep bq x).2.b0 * specX (iirStep bq x).2 xs (m + 2)
              + (iirStep bq x).2.b1 * specX (iirStep bq x).2 xs (m + 1)
              + (iirStep bq x).2.b2 * specX (iirStep bq x).2 xs m
              + (iirStep bq x).2.a1 * specY (iirStep bq x).2 xs (m + 1)
              + (iirStep bq x).2.a2 * specY (iirStep bq x).2 xs m := by
            simp [specY]
        _ = bq.b0 * specX bq (x :: xs) (m + 3) + bq.b1 * specX bq (x :: xs) (m + 2)
              + bq.b2 * specX bq (x :: xs) (m + 1) + bq.a1 * specY bq (x :: xs) (m + 2)
              + bq.a2 * specY bq (x :: xs) (m + 1) := by
            rw [specX_step, specX_step, specX_step, h1, h0]
            simp [iirStep]
        _ = specY bq (x :: xs) (m + 3) := by
            simp [specY]

/-- Every output position of the filter loop satisfies the claimed
direct-form recursion. -/
theorem iirLoop_getD (xs : List ℚ) : ∀ (bq : Biquad) (n : ℕ), n < xs.length →
    (iirLoop bq xs).1.getD n 0 = specY bq xs (n + 2) := by
  induction xs with
  | nil => intro bq n h; simp at h
  | cons x xs ih =>
    intro bq n h
    match n with
    | 0 =>
      show (iirStep bq x).1 = specY bq (x :: xs) 2
      simp [iirStep, specY, specX]
    | n + 1 =>
      have hlt : n < xs.length := by simpa using h
      calc (iirLoop bq (x :: xs)).1.getD (n + 1) 0
          = (iirLoop (iirStep bq x).2 xs).1.getD n 0 := by simp [iirLoop]
        _ = specY (iirStep bq x).2 xs (n + 2) := ih _ n hlt
        _ = specY bq (x :: xs) (n + 3) := specY_step bq x xs (n + 2)

/- ===== Claim theorems ===== -/

/-- C6 counterexample: calling `iir` with a one-element input and an empty
pre-allocated output buffer (mismatched lengths) returns the output buffer
and the filter state completely untouched, with no error value of any kind:
the function's return type is unit in the source, so the mismatch is
indistinguishable from not calling the function at all. This refutes the
claim that a mismatched pre-allocated output length is rejected as an
explicit failure rather than silently ignored. -/
theorem iir_mismatch_silent_cex :
    iir [1, 2] [0] Biquad.zero = ([0], Biquad.zero) ∧
    iir [1] [] Biquad.zero = ([], Biquad.zero) := by
  constructor <;> norm_num [iir]

/-- C6 (amended): `iir` is length-preserving whenever the pre-allocated
output buffer has the input's length, and on a length mismatch it returns
with the output buffer and the filter state unchanged — the mismatch is
silently ignored, not signalled. -/
theorem iir_length_preserving :
    ∀ (input output : List ℚ) (bq : Biquad),
      (input.length = output.length → (iir input output bq).1.length = input.length) ∧
      (input.length ≠ output.length → iir input output bq = (output, bq)) := by
  intro input output bq
  constructor
  · intro h
    simp [iir, h, iirLoop_length]
  · intro h
    simp [iir, h]

/-- C6 witness: the two branches of `iir_length_preserving` at concrete
inputs. -/
theorem iir_length_preserving_witness :
    (([1, 2] : List ℚ).length = ([5, 6] : List ℚ).length ∧
      (iir [1, 2] [5, 6] Biquad.zero).1.length = ([1, 2] : List ℚ).length) ∧
    (([1, 2] : List ℚ).length ≠ ([0] : List ℚ).length ∧
      iir [1, 2] [0] Biquad.zero = (([0] : List ℚ), Biquad.zero)) :=
  ⟨⟨by decide, (iir_length_preserving [1, 2] [5, 6] Biquad.zero).1 (by decide)⟩,
   ⟨by decide, (iir_length_preserving [1, 2] [0] Biquad.zero).2 (by decide)⟩⟩

/-- C7: for every input/output pair of equal length and every initial state,
each sample produced by `iir` equals the sample of the direct-form recursion
`y[n] = b0*x[n] + b1*x[n-1] + b2*x[n-2] + a1*y[n-1] + a2*y[n-2]` (feedback
added, not subtracted), with the histories threaded from the state's initial
delay-line values; `specY` is that recursion written from the claim, offset
so that output sample n is `specY bq input (n + 2)`. -/
theorem iir_direct_form (input output : List ℚ) (bq : Biquad)
    (hlen : input.length = output.length) :
    ∀ n, n < input.length → (iir input output bq).1.getD n 0 = specY bq input (n + 2) := by
  intro n hn
  simp only [iir, if_pos hlen]
  exact iirLoop_getD input bq n hn

/-- C7 witness: the recursion checked at a concrete state with distinct
coefficients and a concrete two-sample input; the second output sample is
2*31 + 3*29 + 5*13 + 7*568 + 11*19 = 4399 where 568 is the first output. -/
theorem iir_direct_form_witness :
    ([29, 31] : List ℚ).length = ([0, 0] : List ℚ).length ∧
    1 < ([29, 31] : List ℚ).length ∧
    (iir [29, 31] [0, 0] bq0).1.getD 1 0 = specY bq0 [29, 31] 3 ∧
    (iir [29, 31] [0, 0] bq0).1.getD 1 0 = 4399 :=
  ⟨by decide, by decide,
   iir_direct_form [29, 31] [0, 0] bq0 (by decide) 1 (by decide),
   by norm_num [iir, iirLoop, iirStep, bq0]⟩

/-- C8: the coefficients computed by `get_biquad` are exactly the
audio-EQ-cookbook low-pass coefficients normalized by a0 (`cookbookLowpass`,
written from the spec), with the two feedback coefficients stored negated
relative to the textbook sign convention, and with b0 = b2; this holds for
every interpretation of the trigonometric functions and of pi, hence in
particular for the real ones the f64 source approximates. -/
theorem get_biquad_cookbook :
    ∀ (cosf sinf : ℚ → ℚ) (pi fc q : ℚ),
      (get_biquad cosf sinf pi fc q).b0 = (cookbookLowpass cosf sinf pi fc q).b0 ∧
      (get_biquad cosf sinf pi fc q).b1 = (cookbookLowpass cosf sinf pi fc q).b1 ∧
      (get_biquad cosf sinf pi fc q).b2 = (cookbookLowpass cosf sinf pi fc q).b2 ∧
      (get_biquad cosf sinf pi fc q).b0 = (get_biquad cosf sinf pi fc q).b2 ∧
      (get_biquad cosf sinf pi fc q).a1 = -(cookbookLowpass cosf sinf pi fc q).a1 ∧
      (get_biquad cosf sinf pi fc q).a2 = -(cookbookLowpass cosf sinf pi fc q).a2 := by
  intro cosf sinf pi fc q
  refine ⟨rfl, rfl, rfl, rfl, ?_, ?_⟩ <;>
    · simp only [get_biquad, cookbookLowpass]
      ring

/-- Characterization of a completed fade loop: the length is preserved, the
first `fade - i` positions are scaled by the linear coefficient, and the rest
are untouched. -/
theorem fadeGo_some (xs : List ℚ) : ∀ (denom : ℚ) (fade i : ℕ) (out : List ℚ),
    fadeGo denom fade i xs = some out →
    out.length = xs.length ∧
    ∀ k, out.getD k 0 =
      if i + k < fade then xs.getD k 0 * (((i + k : ℕ) : ℚ) / denom) else xs.getD k 0 := by
  induction xs with
  | nil =>
    intro denom fade i out h
    unfold fadeGo at h
    by_cases hi : i < fade
    · simp [hi] at h
    · simp [hi] at h
      subst h
      refine ⟨rfl, ?_⟩
      intro k
      rw [if_neg (by omega)]
  | cons x xs ih =>
    intro denom fade i out h
    unfold fadeGo at h
    by_cases hi : i < fade
    · rw [if_pos hi] at h
      cases heq : fadeGo denom fade (i + 1) xs with
      | none => rw [heq] at h; exact absurd h (by simp)
      | some ys =>
        rw [heq] at h
        simp only [Option.some.injEq] at h
        subst h
        obtain ⟨hlen, hget⟩ := ih denom fade (i + 1) ys heq
        refine ⟨by simpa using hlen, ?_⟩
        intro k
        match k with
        | 0 =>
          rw [if_pos (by omega)]
          simp
        | k + 1 =>
          have := hget k
          simpa [show i + 1 + k = i + (k + 1) by omega] using this
    · rw [if_neg hi] at h
      simp only [Option.some.injEq] at h
      subst h
      refine ⟨rfl, ?_⟩
      intro k
      rw [if_neg (by omega)]

/-- The fade loop aborts with an out-of-bounds panic exactly when the list
runs out before the loop counter reaches `fade`. -/
theorem fadeGo_none_iff (xs : List ℚ) : ∀ (denom : ℚ) (fade i : ℕ),
    fadeGo denom fade i xs = none ↔ xs.length + i < fade := by
  induction xs with
  | nil =>
    intro denom fade i
    unfold fadeGo
    by_cases hi : i < fade <;> simp [hi]
  | cons x xs ih =>
    intro denom fade i
    unfold fadeGo
    by_cases hi : i < fade
    · rw [if_pos hi]
      cases heq : fadeGo denom fade (i + 1) xs with
      | none =>
        have h2 := (ih denom fade (i + 1)).mp heq
        simp only [List.length_cons]
        exact iff_of_true trivial (by omega)
      | some ys =>
        have h2 : ¬ (xs.length + (i + 1) < fade) := fun hc => by
          have h3 := (ih denom fade (i + 1)).mpr hc
          rw [h3] at heq
          exact Option.noConfusion heq
        simp only [List.length_cons]
        exact iff_of_false (by simp) (by omega)
    · rw [if_neg hi]
      simp only [List.length_cons]
      exact iff_of_false (by simp) (by omega)

/-- Every line produced by the `write_fft` loop carries a frequency
`(i + k) / denom` for some position `k` within the data. -/
theorem writeFftGo_mem (xs : List ℚ) : ∀ (denom : ℚ) (i : ℕ) (p : ℚ × ℚ),
    p ∈ writeFftGo denom i xs →
    ∃ k, k < xs.length ∧ p.1 = ((i + k : ℕ) : ℚ) / denom := by
  induction xs with
  | nil => intro denom i p h; simp [writeFftGo] at h
  | cons x xs ih =>
    intro denom i p h
    simp only [writeFftGo, List.mem_cons] at h
    cases h with
    | inl h =>
      refine ⟨0, by simp, ?_⟩
      subst h
      simp
    | inr h =>
      obtain ⟨k, hk, hp⟩ := ih denom (i + 1) p h
      exact ⟨k + 1, by simpa using hk,
        by rw [hp, show i + 1 + k = i + (k + 1) from by omega]⟩

/-- C1 counterexample: on the four-point input [0, 1, 0, 0] with the exact
forward 4-point DFT, bin 1 of the transform is -i, whose complex magnitude is
1, but the value returned by `get_fft` at bin 1 is |Re(-i)| = 0. A real value
equal to the complex magnitude must square to re^2 + im^2 = 1, and 0^2 = 0,
so the returned value is not the absolute value of the complex transform
output: the source takes `c.re.abs()`, the absolute value of the real part
only. -/
theorem get_fft_magnitude_cex :
    (get_fft dft4plan [0, 1, 0, 0]).getD 1 0 = 0 ∧
    (dft4plan (([0, 1, 0, 0] : List ℚ).map (fun v => Cplx.mk v 0))).getD 1 ⟨0, 0⟩ = ⟨0, -1⟩ ∧
    ((get_fft dft4plan [0, 1, 0, 0]).getD 1 0) ^ 2 ≠
      ((dft4plan (([0, 1, 0, 0] : List ℚ).map (fun v => Cplx.mk v 0))).getD 1 ⟨0, 0⟩).re ^ 2 +
        ((dft4plan (([0, 1, 0, 0] : List ℚ).map (fun v => Cplx.mk v 0))).getD 1 ⟨0, 0⟩).im ^ 2 := by
  refine ⟨?_, ?_, ?_⟩ <;> norm_num [get_fft, dft4plan]

/-- C1 (amended): for every length-preserving transform and every input
series, `get_fft` returns exactly the first floor(N/2) bins of the N-point
transform, with no normalization by N, and each returned value is the
absolute value of the REAL PART of the complex transform output at that bin
(not the complex magnitude). -/
theorem get_fft_one_sided_re_abs (plan : List Cplx → List Cplx) (data : List ℚ)
    (hlen : (plan (data.map (fun v => Cplx.mk v 0))).length = data.length) :
    (get_fft plan data).length = data.length / 2 ∧
    ∀ k, k < data.length / 2 →
      (get_fft plan data).getD k 0 =
        |((plan (data.map (fun v => Cplx.mk v 0))).getD k ⟨0, 0⟩).re| := by
  unfold get_fft
  constructor
  · simp only [List.length_take, List.length_map, hlen]
    omega
  · intro k hk
    have hkp : k < (plan (data.map (fun v => Cplx.mk v 0))).length := by omega
    rw [List.getD_eq_getElem?_getD, List.getElem?_take, if_pos hk, List.getElem?_map,
      List.getElem?_eq_getElem hkp, List.getD_eq_getElem?_getD,
      List.getElem?_eq_getElem hkp]
    rfl

/-- C1 witness: the amended theorem instantiated on the exact 4-point DFT and
the input [0, 1, 0, 0]. -/
theorem get_fft_one_sided_re_abs_witness :
    (dft4plan (([0, 1, 0, 0] : List ℚ).map (fun v => Cplx.mk v 0))).length =
      ([0, 1, 0, 0] : List ℚ).length ∧
    (get_fft dft4plan [0, 1, 0, 0]).length = ([0, 1, 0, 0] : List ℚ).length / 2 ∧
    (get_fft dft4plan [0, 1, 0, 0]).getD 0 0 =
      |((dft4plan (([0, 1, 0, 0] : List ℚ).map (fun v => Cplx.mk v 0))).getD 0 ⟨0, 0⟩).re| :=
  ⟨rfl, (get_fft_one_sided_re_abs dft4plan [0, 1, 0, 0] rfl).1,
   (get_fft_one_sided_re_abs dft4plan [0, 1, 0, 0] rfl).2 0 (by norm_num)⟩

/-- C4 counterexample: for sample_rate = 48000, period_size = 256,
skip_seconds = 0.5 and fade_seconds = 1.0, the source computes 93 and 187
(the `as usize` cast truncates 93.75 and 187.5 toward zero), while
round(93.75) = 94 and round(187.5) = 188; so the claimed counts
round(93.75) and round(187.5) are not the computed ones. -/
theorem skip_fade_round_cex :
    skipCount 48000 256 (1 / 2) = 93 ∧
    skipCount 48000 256 1 = 187 ∧
    round ((48000 : ℚ) * (1 / 2) / 256) = 94 ∧
    round ((48000 : ℚ) * 1 / 256) = 188 ∧
    (93 : ℤ) ≠ 94 ∧ (187 : ℤ) ≠ 188 := by
  refine ⟨?_, ?_, ?_, ?_, by decide, by decide⟩ <;>
    · norm_num [skipCount, round_eq]
      try decide

/-- C4 (amended): the analyzer discards exactly `skip` leading points and then
linearly fades the first `fade` remaining points by `i / (fade - 1)`, leaving
the rest untouched, where the counts are computed by TRUNCATION toward zero
(the floor, for these non-negative values) of seconds * sample_rate /
period_size — not by rounding; for sample_rate = 48000, period_size = 256,
skip_seconds = 0.5 and fade_seconds = 1.0 the counts are 93 and 187
(truncations of 93.75 and 187.5). -/
theorem skip_fade_truncate :
    skipCount 48000 256 (1 / 2) = 93 ∧
    skipCount 48000 256 1 = 187 ∧
    (∀ (rate ps : ℕ) (s : ℚ), 0 ≤ s →
      (skipCount rate ps s : ℤ) = ⌊(rate : ℚ) * s / (ps : ℚ)⌋) ∧
    (∀ (lines : List ℚ) (skip fade : ℕ) (out : List ℚ),
      prepareData lines skip fade = some out →
      out.length = lines.length - skip ∧
      (∀ k, k < fade →
        out.getD k 0 = (lines.drop skip).getD k 0 * ((k : ℚ) / ((fade : ℚ) - 1))) ∧
      (∀ k, fade ≤ k → out.getD k 0 = (lines.drop skip).getD k 0)) := by
  refine ⟨?_, ?_, ?_, ?_⟩
  · norm_num [skipCount]
    decide
  · norm_num [skipCount]
    decide
  · intro rate ps s hs
    unfold skipCount
    rw [Int.toNat_of_nonneg]
    exact Int.floor_nonneg.mpr (div_nonneg (mul_nonneg (Nat.cast_nonneg rate) hs)
      (Nat.cast_nonneg ps))
  · intro lines skip fade out h
    obtain ⟨hlen, hget⟩ := fadeGo_some (lines.drop skip) ((fade : ℚ) - 1) fade 0 out h
    refine ⟨by rw [hlen, List.length_drop], ?_, ?_⟩
    · intro k hk
      have := hget k
      rwa [if_pos (by omega), Nat.zero_add] at this
    · intro k hk
      have := hget k
      rwa [if_neg (by omega)] at this

/-- C4 witness: the truncation formula at the concrete parameters of the run,
and the skip/fade decomposition on a small concrete series. -/
theorem skip_fade_truncate_witness :
    (0 ≤ (1 / 2 : ℚ) ∧ (skipCount 48000 256 (1 / 2) : ℤ) = ⌊(48000 : ℚ) * (1 / 2) / (256 : ℚ)⌋) ∧
    (prepareData [1, 2, 3] 1 1 = some [0, 3] ∧
      ([0, 3] : List ℚ).length = ([1, 2, 3] : List ℚ).length - 1) :=
  ⟨⟨by norm_num, skip_fade_truncate.2.2.1 48000 256 (1 / 2) (by norm_num)⟩,
   ⟨by norm_num [prepareData, fadeGo],
    (skip_fade_truncate.2.2.2 [1, 2, 3] 1 1 [0, 3] (by norm_num [prepareData, fadeGo])).1⟩⟩

/-- C5 counterexample: for the two-point magnitude spectrum [5, 7] the writer
produces the lines (0, 5) and (1, 7); the normalized frequency of the last
line is exactly 1, which does not lie in the half-open interval [0, 1). The
divisor is len - 1, so the last bin always lands on 1. -/
theorem write_fft_freq_cex :
    write_fft [5, 7] = [(0, 5), (1, 7)] ∧
    ((1 : ℚ), (7 : ℚ)) ∈ write_fft [5, 7] ∧
    ¬ ((1 : ℚ) < 1) := by
  refine ⟨?_, ?_, by norm_num⟩ <;> norm_num [write_fft, writeFftGo]

/-- C5 (amended): for every magnitude spectrum with at least two points,
every normalized frequency written by the spectrum file writer lies in the
CLOSED interval [0, 1]; the upper end 1 is attained at the last line. (For a
single-point spectrum the source divides zero by zero, which in f64 produces
NaN, outside any interval.) -/
theorem write_fft_freq_range (fft_data : List ℚ) (h2 : 2 ≤ fft_data.length) :
    ∀ p ∈ write_fft fft_data, 0 ≤ p.1 ∧ p.1 ≤ 1 := by
  intro p hp
  obtain ⟨k, hk, hp1⟩ := writeFftGo_mem fft_data _ 0 p hp
  rw [hp1]
  have hd : (0 : ℚ) < ((fft_data.length - 1 : ℕ) : ℚ) := by
    have : 1 ≤ fft_data.length - 1 := by omega
    exact_mod_cast Nat.lt_of_lt_of_le Nat.zero_lt_one this
  constructor
  · exact div_nonneg (Nat.cast_nonneg _) (le_of_lt hd)
  · rw [div_le_one hd]
    exact_mod_cast Nat.le_sub_one_of_lt (by simpa using hk)

/-- C5 witness: the range theorem instantiated on the spectrum [5, 7] and its
first line (0, 5). -/
theorem write_fft_freq_range_witness :
    2 ≤ ([5, 7] : List ℚ).length ∧
    ((0 : ℚ), (5 : ℚ)) ∈ write_fft [5, 7] ∧
    (0 ≤ (0 : ℚ) ∧ (0 : ℚ) ≤ 1) :=
  ⟨by decide, by norm_num [write_fft, writeFftGo],
   write_fft_freq_range [5, 7] (by decide) (0, 5) (by norm_num [write_fft, writeFftGo])⟩

/-- C9: the fade-in loop panics (indexes out of bounds) exactly when the
series left after discarding the skip lead-in has fewer than `fade` points;
when the loop's `fade` count is at least one (in the analyzed run it is 187),
a run that completes implies the input had at least skip + fade lines. -/
theorem fade_panic_iff (lines : List ℚ) (skip fade : ℕ) :
    (prepareData lines skip fade = none ↔ (lines.drop skip).length < fade) ∧
    (1 ≤ fade → prepareData lines skip fade ≠ none → skip + fade ≤ lines.length) := by
  have hiff : prepareData lines skip fade = none ↔ (lines.drop skip).length < fade := by
    unfold prepareData
    rw [fadeGo_none_iff]
    omega
  refine ⟨hiff, ?_⟩
  intro h1 hn
  have h2 : ¬ ((lines.drop skip).length < fade) := fun hc => hn (hiff.mpr hc)
  rw [List.length_drop] at h2
  omega

/-- C9 witness: a completed run on a concrete series, with the implied length
lower bound. -/
theorem fade_panic_iff_witness :
    1 ≤ 1 ∧
    prepareData [1, 2, 3] 1 1 ≠ none ∧
    1 + 1 ≤ ([1, 2, 3] : List ℚ).length :=
  ⟨le_refl 1, by simp [prepareData, fadeGo],
   (fade_panic_iff [1, 2, 3] 1 1).2 (le_refl 1) (by simp [prepareData, fadeGo])⟩

/-- C2: across two consecutive capture iterations that both reach the status
write (so the second call sees the sample retained by the first), under the
conditions that hold on a healthy capture stream — non-negative reported
delays, captured counts below 2^64 and a non-decreasing captured count — the
rate written by the second call is exactly
(captured_frames2 - captured_frames1) / (system_tstamp2 - system_tstamp1)
with captured_frames_i = cumulative transferred frames + delay frames of
snapshot i and the timestamps the system (htstamp) clocks of the two
snapshots. -/
theorem capture_rate_instant_eq (s1 s2 : AlsaStatus) (last0 : Option PreviousStatus)
    (f1 f2 : ℕ)
    (hd1 : 0 ≤ s1.delay) (_hd2 : 0 ≤ s2.delay)
    (hr1 : (f1 : ℤ) + s1.delay < 2 ^ 64) (hr2 : (f2 : ℤ) + s2.delay < 2 ^ 64)
    (hmono : (f1 : ℤ) + s1.delay ≤ (f2 : ℤ) + s2.delay) :
    (write_timestamp_capture s2 (some (write_timestamp_capture s1 last0 f1).2) f2).1 =
      some ((((f2 : ℤ) + s2.delay - ((f1 : ℤ) + s1.delay) : ℤ) : ℚ) /
        (timespec_f64 s2.htstamp - timespec_f64 s1.htstamp)) := by
  have key : u64Sub ((f2 + toU64 s2.delay) % 2 ^ 64) ((f1 + toU64 s1.delay) % 2 ^ 64)
      = ((f2 : ℤ) + s2.delay - ((f1 : ℤ) + s1.delay)).toNat := by
    unfold u64Sub toU64
    omega
  show some ((u64Sub ((f2 + toU64 s2.delay) % 2 ^ 64) ((f1 + toU64 s1.delay) % 2 ^ 64) : ℕ)
      / (timespec_f64 s2.htstamp - timespec_f64 s1.htstamp) : ℚ) = _
  rw [key]
  congr 1
  rw [← Int.cast_natCast, Int.toNat_of_nonneg (by omega)]

/-- C2 witness: two concrete snapshots one second apart with 50 frames of
progress. -/
theorem capture_rate_instant_eq_witness :
    (0 ≤ (3 : ℤ) ∧ 0 ≤ (5 : ℤ) ∧ (100 : ℤ) + 3 < 2 ^ 64 ∧ (148 : ℤ) + 5 < 2 ^ 64 ∧
      (100 : ℤ) + 3 ≤ (148 : ℤ) + 5) ∧
    (write_timestamp_capture ⟨⟨0, 0⟩, ⟨0, 0⟩, ⟨11, 0⟩, 5⟩
        (some (write_timestamp_capture ⟨⟨0, 0⟩, ⟨0, 0⟩, ⟨10, 0⟩, 3⟩ none 100).2) 148).1 =
      some ((((148 : ℤ) + 5 - ((100 : ℤ) + 3) : ℤ) : ℚ) /
        (timespec_f64 ⟨11, 0⟩ - timespec_f64 ⟨10, 0⟩)) :=
  ⟨⟨by decide, by decide, by decide, by decide, by decide⟩,
   capture_rate_instant_eq ⟨⟨0, 0⟩, ⟨0, 0⟩, ⟨10, 0⟩, 3⟩ ⟨⟨0, 0⟩, ⟨0, 0⟩, ⟨11, 0⟩, 5⟩ none
     100 148 (by decide) (by decide) (by decide) (by decide) (by decide)⟩

/-- C3: (1) an iteration whose read succeeds but whose state holds no
previous status sample writes no rate estimate (first sample); (2) an
iteration that recovers from a wait error and then reads successfully writes
no estimate either, and its final state shows the recovery: xrun counter
incremented, frame counter restarted from zero (then accumulating the new
read), previous-status slot rebuilt from scratch (the write call ran with no
prior sample); (3) a read-error iteration recovers: xruns + 1, frame counter
zeroed, previous sample cleared, nothing written; (4) with both a wait and a
read error, each recovery increments the counter once (total + 2); (5) the
successful iteration immediately following any error iteration writes no
estimate. -/
theorem capture_recovery_resets :
    (∀ (st : CaptureState) (len : ℕ) (status : AlsaStatus), st.last_status = none →
      (captureIteration false (ReadResult.ok len status) st).2 = none) ∧
    (∀ (st : CaptureState) (len : ℕ) (status : AlsaStatus),
      (captureIteration true (ReadResult.ok len status) st).2 = none ∧
      (captureIteration true (ReadResult.ok len status) st).1 =
        ⟨st.xruns + 1, len % 2 ^ 64,
          some (write_timestamp_capture status none (len % 2 ^ 64)).2⟩) ∧
    (∀ st : CaptureState, captureIteration false ReadResult.err st =
      (⟨st.xruns + 1, 0, none⟩, none)) ∧
    (∀ st : CaptureState, captureIteration true ReadResult.err st =
      (⟨st.xruns + 2, 0, none⟩, none)) ∧
    (∀ (st : CaptureState) (w : Bool) (len : ℕ) (status : AlsaStatus),
      (captureIteration false (ReadResult.ok len status)
        (captureIteration w ReadResult.err st).1).2 = none) := by
  refine ⟨?_, ?_, ?_, ?_, ?_⟩
  · intro st len status h
    simp [captureIteration, write_timestamp_capture, h]
  · intro st len status
    constructor <;> simp [captureIteration, recoverCapture, write_timestamp_capture]
  · intro st
    rfl
  · intro st
    rfl
  · intro st w len status
    cases w <;> simp [captureIteration, recoverCapture, write_timestamp_capture]

/-- C3 witness: a concrete first-sample iteration writes nothing. -/
theorem capture_recovery_resets_witness :
    (⟨0, 0, none⟩ : CaptureState).last_status = none ∧
    (captureIteration false (ReadResult.ok 5 ⟨⟨0, 0⟩, ⟨0, 0⟩, ⟨1, 0⟩, 0⟩)
      ⟨0, 0, none⟩).2 = none :=
  ⟨rfl, capture_recovery_resets.1 ⟨0, 0, none⟩ 5 ⟨⟨0, 0⟩, ⟨0, 0⟩, ⟨1, 0⟩, 0⟩ rfl⟩

/-- C10 counterexample: the claim's "only under the precondition that the
reported delay is non-negative and captured_frames is non-decreasing —
otherwise the written rate estimate is meaningless" fails: with a negative
delay of -1, five cumulative frames and a previous captured count of 2, the
`as u64` cast does wrap (it yields 2^64 - 1), but the wraps of the cast and
of the addition cancel modulo 2^64, and the written estimate
(2 frames / 2 seconds = 1) still equals the true mathematical
Δcaptured_frames / Δsystem_time. -/
theorem capture_delta_wrap_cex :
    ¬ (0 ≤ (-1 : ℤ)) ∧
    toU64 (-1) = 2 ^ 64 - 1 ∧
    (write_timestamp_capture ⟨⟨0, 0⟩, ⟨0, 0⟩, ⟨7, 0⟩, -1⟩
      (some ⟨⟨0, 0⟩, ⟨5, 0⟩, 2⟩) 5).1 = some 1 ∧
    ((((5 : ℤ) + (-1)) - 2 : ℤ) : ℚ) / (timespec_f64 ⟨7, 0⟩ - timespec_f64 ⟨5, 0⟩) = 1 := by
  refine ⟨by decide, by decide, ?_, ?_⟩
  · have htn : Int.toNat 2 = 2 := rfl
    norm_num [write_timestamp_capture, u64Sub, toU64, timespec_f64, htn]
  · norm_num [timespec_f64]

/-- C10 (amended): the written delta is the u64 value congruent modulo 2^64
to the true mathematical difference (frames_count + delay) -
previous.captured_frames; it equals the true difference exactly whenever the
true captured count lies in [0, 2^64) and is at least the stored previous
count (in particular whenever the delay is non-negative and the count
non-decreasing, as the claim states); outside that range the cast or the
subtraction wraps and the written value differs from the truth by a non-zero
multiple of 2^64. -/
theorem capture_delta_modular (status : AlsaStatus) (prev : PreviousStatus) (f : ℕ) :
    ∃ delta : ℕ,
      (write_timestamp_capture status (some prev) f).1 =
        some ((delta : ℚ) / (timespec_f64 status.htstamp - timespec_f64 prev.htstamp)) ∧
      (delta : ℤ) % 2 ^ 64 = ((f : ℤ) + status.delay - (prev.captured_frames : ℤ)) % 2 ^ 64 ∧
      (0 ≤ (f : ℤ) + status.delay → (f : ℤ) + status.delay < 2 ^ 64 →
        (prev.captured_frames : ℤ) ≤ (f : ℤ) + status.delay →
        (delta : ℤ) = (f : ℤ) + status.delay - (prev.captured_frames : ℤ)) := by
  refine ⟨u64Sub ((f + toU64 status.delay) % 2 ^ 64) prev.captured_frames, rfl, ?_, ?_⟩
  · unfold u64Sub toU64
    omega
  · intro h0 h1 h2
    unfold u64Sub toU64
    omega

/-- C10 witness: the amended theorem at a concrete in-range snapshot. -/
theorem capture_delta_modular_witness :
    (0 ≤ (5 : ℤ) + 3 ∧ (5 : ℤ) + 3 < 2 ^ 64 ∧ ((2 : ℕ) : ℤ) ≤ (5 : ℤ) + 3) ∧
    ∃ delta : ℕ,
      (write_timestamp_capture ⟨⟨0, 0⟩, ⟨0, 0⟩, ⟨7, 0⟩, 3⟩
          (some ⟨⟨0, 0⟩, ⟨5, 0⟩, 2⟩) 5).1 =
        some ((delta : ℚ) / (timespec_f64 ⟨7, 0⟩ - timespec_f64 ⟨5, 0⟩)) ∧
      (delta : ℤ) = (5 : ℤ) + 3 - ((2 : ℕ) : ℤ) := by
  obtain ⟨delta, h1, h2, h3⟩ :=
    capture_delta_modular ⟨⟨0, 0⟩, ⟨0, 0⟩, ⟨7, 0⟩, 3⟩ ⟨⟨0, 0⟩, ⟨5, 0⟩, 2⟩ 5
  exact ⟨⟨by decide, by decide, by decide⟩,
    delta, h1, h3 (by decide) (by decide) (by decide)⟩
